import Mathlib

/-!
A shallow embedding of the retrieval core of a small RAG system
(chunking, batch embedding with per-item failure, index build and load,
and query-time retrieval), together with theorems settling the spec's
claims about it.

Conventions of the embedding:
* Python strings are Lean `String`s; slicing and `strip()` are modelled
  by `pySlice` and `pyStrip` below with Python's semantics.
* Machine floats that only flow through the code (embedding vectors,
  FAISS distances) are modelled as rationals `ℚ`; no claim depends on
  float rounding.
* External services (`ollama.embeddings`, `ollama.chat`, FAISS `search`)
  are injected as function parameters; a call that may raise is a
  function into `Except`/`Option`.
* The `while` loop of `chunk_text` is modelled with explicit fuel,
  `none` meaning the loop has not finished within `fuel` iterations;
  a loop that returns `none` for every fuel does not terminate.
-/

namespace RagSpec

/-- A chunk-metadata record, Python dict `{"doc_name": ..., "chunk_id": ...}`
built in `build_corpus_chunks` (src/index_builder.py). -/
structure Meta where
  doc_name : String
  chunk_id : Nat
deriving DecidableEq

/-- Python `str.strip()`: remove leading and trailing whitespace. -/
def pyStrip (s : String) : String :=
  String.mk (((s.toList.dropWhile Char.isWhitespace).reverse.dropWhile
    Char.isWhitespace).reverse)

/-- Effective index of a Python slice bound `i` over a sequence of length
`n`: negative indices count from the end, and the result is clamped into
`[0, n]`. -/
def pyIdx (n : Nat) (i : Int) : Int :=
  if i < 0 then max ((n : Int) + i) 0 else min i (n : Int)

/-- Python slicing `s[a:b]` for int indices `a`, `b`. -/
def pySlice (s : String) (a b : Int) : String :=
  String.mk ((s.toList.take (pyIdx s.length b).toNat).drop
    (pyIdx s.length a).toNat)

/-- Default chunking parameters of src/index_builder.py. -/
def CHUNK_SIZE_CHARS : Int := 1200

/-- Default overlap parameter of src/index_builder.py. -/
def CHUNK_OVERLAP_CHARS : Int := 300

/-- The `while start < n` loop of `chunk_text` (src/index_builder.py,
lines 76-88), one constructor case per iteration: slice
`text[start:start+chunk_size_chars]`, strip it, append it when non-empty,
and advance `start` by `chunk_size_chars - overlap_chars` (as `end -
overlap_chars` in the source).  `fuel` bounds the number of iterations and
`none` means the loop did not finish within `fuel` iterations. -/
def chunkLoop (text : String) (chunk_size_chars overlap_chars : Int) :
    Nat → Int → List String → Option (List String)
  | 0, _, _ => none
  | fuel + 1, start, chunks =>
      if start < (text.length : Int) then
        let stop := start + chunk_size_chars
        let chunk := pyStrip (pySlice text start stop)
        let chunks2 := if chunk = "" then chunks else chunks ++ [chunk]
        chunkLoop text chunk_size_chars overlap_chars fuel
          (stop - overlap_chars) chunks2
      else
        some chunks

/-- Function `chunk_text(text, chunk_size_chars, overlap_chars)` of
src/index_builder.py: run `chunkLoop` from `start = 0` with an empty
accumulator.  The source has no fuel: `none` for every fuel means the
Python loop never terminates. -/
def chunk_text (text : String) (chunk_size_chars overlap_chars : Int)
    (fuel : Nat) : Option (List String) :=
  chunkLoop text chunk_size_chars overlap_chars fuel 0 []

/-- When the step `chunk_size_chars - overlap_chars` is non-positive the
window start never increases, so from any start below the text length the
loop never exits, whatever the fuel. -/
lemma chunkLoop_none_of_step_nonpos (text : String)
    (chunk_size_chars overlap_chars : Int)
    (hstep : chunk_size_chars ≤ overlap_chars) :
    ∀ (fuel : Nat) (start : Int) (chunks : List String),
      start < (text.length : Int) →
      chunkLoop text chunk_size_chars overlap_chars fuel start chunks =
        none := by
  intro fuel
  induction fuel with
  | zero => intro start chunks _; rfl
  | succ n ih =>
      intro start chunks hlt
      rw [chunkLoop, if_pos hlt]
      exact ih _ _ (by omega)

/-- Monotonicity in fuel: once the loop finishes with some fuel, any larger
fuel gives the same result. -/
lemma chunkLoop_mono (text : String) (chunk_size_chars overlap_chars : Int) :
    ∀ (fuel fuel2 : Nat) (start : Int) (chunks r : List String),
      fuel ≤ fuel2 →
      chunkLoop text chunk_size_chars overlap_chars fuel start chunks =
        some r →
      chunkLoop text chunk_size_chars overlap_chars fuel2 start chunks =
        some r := by
  intro fuel
  induction fuel with
  | zero =>
      intro fuel2 start chunks r _ h
      simp [chunkLoop] at h
  | succ n ih =>
      intro fuel2 start chunks r hle h
      obtain ⟨m, rfl⟩ : ∃ m, fuel2 = m + 1 :=
        ⟨fuel2 - 1, by omega⟩
      rw [chunkLoop] at h ⊢
      by_cases hlt : start < (text.length : Int)
      · rw [if_pos hlt] at h ⊢
        exact ih m _ _ _ (by omega) h
      · rw [if_neg hlt] at h ⊢
        exact h

/-- With a positive step, fuel `k` suffices whenever
`text.length ≤ start + k`: each iteration advances `start` by at least 1. -/
lemma chunkLoop_some_of_step_pos (text : String)
    (chunk_size_chars overlap_chars : Int)
    (hstep : overlap_chars < chunk_size_chars) :
    ∀ (k : Nat) (start : Int) (chunks : List String),
      (text.length : Int) ≤ start + k →
      ∃ r, chunkLoop text chunk_size_chars overlap_chars (k + 1) start
        chunks = some r := by
  intro k
  induction k with
  | zero =>
      intro start chunks hle
      refine ⟨chunks, ?_⟩
      rw [chunkLoop, if_neg (by omega)]
  | succ m ih =>
      intro start chunks hle
      rw [chunkLoop]
      by_cases hlt : start < (text.length : Int)
      · rw [if_pos hlt]
        exact ih _ _ (by omega)
      · rw [if_neg hlt]
        exact ⟨_, rfl⟩

/-- Dropping a prefix never lengthens a list. -/
lemma dropWhile_len_le (p : Char → Bool) :
    ∀ l : List Char, (l.dropWhile p).length ≤ l.length := by
  intro l
  induction l with
  | nil => simp [List.dropWhile]
  | cons a l ih =>
      rw [List.dropWhile_cons]
      split
      · exact Nat.le_succ_of_le ih
      · simp

/-- Stripping never lengthens a string. -/
lemma pyStrip_length_le (s : String) : (pyStrip s).length ≤ s.length := by
  unfold pyStrip
  have h1 : ∀ (l : List Char),
      (l.dropWhile Char.isWhitespace).length ≤ l.length :=
    dropWhile_len_le _
  calc (((s.toList.dropWhile Char.isWhitespace).reverse.dropWhile
        Char.isWhitespace).reverse).length
      = ((s.toList.dropWhile Char.isWhitespace).reverse.dropWhile
        Char.isWhitespace).length := List.length_reverse _
    _ ≤ (s.toList.dropWhile Char.isWhitespace).reverse.length := h1 _
    _ = (s.toList.dropWhile Char.isWhitespace).length :=
        List.length_reverse _
    _ ≤ s.toList.length := h1 _
    _ = s.length := rfl

/-- A slice `s[a:a+size]` with `0 ≤ a` has at most `size` characters. -/
lemma pySlice_length_le (s : String) (a size : Int) (ha : 0 ≤ a)
    (hsize : 0 ≤ size) :
    ((pySlice s a (a + size)).length : Int) ≤ size := by
  have hlen : (pySlice s a (a + size)).length =
      ((s.toList.take (pyIdx s.length (a + size)).toNat).drop
        (pyIdx s.length a).toNat).length := rfl
  rw [hlen, List.length_drop, List.length_take]
  unfold pyIdx
  rw [if_neg (by omega), if_neg (by omega)]
  have hl : s.toList.length = s.length := rfl
  omega

/-- Every chunk the loop appends (beyond what the accumulator already
holds) has length at most `chunk_size_chars`, provided the start index
stays non-negative, which a positive step preserves. -/
lemma chunkLoop_chunk_length (text : String)
    (chunk_size_chars overlap_chars : Int)
    (hstep : overlap_chars < chunk_size_chars)
    (hsize : 0 ≤ chunk_size_chars) :
    ∀ (fuel : Nat) (start : Int) (chunks r : List String),
      0 ≤ start →
      (∀ c ∈ chunks, (c.length : Int) ≤ chunk_size_chars) →
      chunkLoop text chunk_size_chars overlap_chars fuel start chunks =
        some r →
      ∀ c ∈ r, (c.length : Int) ≤ chunk_size_chars := by
  intro fuel
  induction fuel with
  | zero =>
      intro start chunks r _ _ h
      simp [chunkLoop] at h
  | succ n ih =>
      intro start chunks r hstart hacc h
      rw [chunkLoop] at h
      by_cases hlt : start < (text.length : Int)
      · rw [if_pos hlt] at h
        refine ih _ _ _ (by omega) ?_ h
        intro c hc
        by_cases hemp : pyStrip (pySlice text start
            (start + chunk_size_chars)) = ""
        · rw [if_pos hemp] at hc
          exact hacc c hc
        · rw [if_neg hemp] at hc
          rcases List.mem_append.1 hc with hc | hc
          · exact hacc c hc
          · rcases List.mem_singleton.1 hc with rfl
            calc ((pyStrip (pySlice text start
                  (start + chunk_size_chars))).length : Int)
                ≤ ((pySlice text start
                  (start + chunk_size_chars)).length : Int) := by
                  exact_mod_cast pyStrip_length_le _
              _ ≤ chunk_size_chars := pySlice_length_le _ _ _ hstart hsize
      · rw [if_neg hlt] at h
        cases h
        exact hacc

/-- C2: the source `chunk_text` never rejects `overlap >= size` — there is
no `ConfigurationError` (or any parameter check) in the repository — and on
such parameters the loop body leaves `start` unchanged or decreases it, so
the call loops forever on any non-empty text.  At `text = "ab"`,
`chunk_size_chars = 1`, `overlap_chars = 1`, the loop never finishes, for
every iteration bound. -/
theorem chunk_text_no_rejection_loops_forever :
    ∀ fuel : Nat, chunk_text "ab" 1 1 fuel = none := by
  intro fuel
  exact chunkLoop_none_of_step_nonpos "ab" 1 1 (le_refl 1) fuel 0 []
    (by decide)

/-- C3: with `0 < overlap_chars < chunk_size_chars` the chunking loop
terminates — fuel `text.length + 1` (hence any larger fuel) suffices and
the result is stable — and every emitted chunk, the final one included,
has at most `chunk_size_chars` characters. -/
theorem chunk_text_terminates (text : String)
    (chunk_size_chars overlap_chars : Int)
    (h0 : 0 < overlap_chars) (h1 : overlap_chars < chunk_size_chars) :
    ∃ chunks,
      (∀ fuel : Nat, text.length + 1 ≤ fuel →
        chunk_text text chunk_size_chars overlap_chars fuel =
          some chunks) ∧
      ∀ c ∈ chunks, (c.length : Int) ≤ chunk_size_chars := by
  obtain ⟨r, hr⟩ := chunkLoop_some_of_step_pos text chunk_size_chars
    overlap_chars h1 text.length 0 [] (by omega)
  refine ⟨r, ?_, ?_⟩
  · intro fuel hfuel
    exact chunkLoop_mono text chunk_size_chars overlap_chars
      (text.length + 1) fuel 0 [] r hfuel hr
  · exact chunkLoop_chunk_length text chunk_size_chars overlap_chars h1
      (by omega) (text.length + 1) 0 [] r (le_refl 0) (by simp) hr

/-- Witness for C3 at `text = "hello"`, `size = 4`, `overlap = 1`. -/
theorem chunk_text_terminates_witness :
    (0 : Int) < 1 ∧ (1 : Int) < 4 ∧
    ∃ chunks,
      (∀ fuel : Nat, "hello".length + 1 ≤ fuel →
        chunk_text "hello" 4 1 fuel = some chunks) ∧
      ∀ c ∈ chunks, (c.length : Int) ≤ 4 :=
  ⟨by decide, by decide,
    chunk_text_terminates "hello" 4 1 (by decide) (by decide)⟩

/-- Call `chunk_text(text)` with the module's default parameters, as made by
`build_corpus_chunks`.  Fuel `text.length + 1` is sufficient by
`chunkLoop_some_of_step_pos` since `CHUNK_OVERLAP_CHARS <
CHUNK_SIZE_CHARS`, so the `getD` default is never taken. -/
def chunk_text_defaults (text : String) : List String :=
  (chunk_text text CHUNK_SIZE_CHARS CHUNK_OVERLAP_CHARS
    (text.length + 1)).getD []

/-- Function `build_corpus_chunks(docs)` (src/index_builder.py, lines
91-109): chunk
each document in input order; append each document chunk to the corpus
chunk list and append `{"doc_name": doc_name, "chunk_id": i}` to the
metadata list, `i` being the per-document `enumerate` index. -/
def build_corpus_chunks :
    List (String × String) → List String × List Meta
  | [] => ([], [])
  | (doc_name, text) :: docs =>
      (chunk_text_defaults text ++ (build_corpus_chunks docs).1,
        (List.range (chunk_text_defaults text).length).map
          (fun i => ⟨doc_name, i⟩) ++ (build_corpus_chunks docs).2)

/-- Every metadata record names one of the input documents. -/
lemma build_corpus_doc_names (docs : List (String × String)) :
    ∀ m ∈ (build_corpus_chunks docs).2, m.doc_name ∈ docs.map Prod.fst := by
  induction docs with
  | nil => simp [build_corpus_chunks]
  | cons d docs ih =>
      obtain ⟨dn, text⟩ := d
      intro m hm
      have hsnd : (build_corpus_chunks ((dn, text) :: docs)).2 =
          (List.range (chunk_text_defaults text).length).map
            (fun i => (⟨dn, i⟩ : Meta)) ++ (build_corpus_chunks docs).2 :=
        rfl
      rw [hsnd] at hm
      rcases List.mem_append.1 hm with hm | hm
      · obtain ⟨i, _, rfl⟩ := List.mem_map.1 hm
        simp
      · simp only [List.map_cons]
        exact List.mem_cons_of_mem _ (ih m hm)

/-- Projecting `chunk_id` back out of a per-document metadata block
recovers the `enumerate` indices. -/
lemma map_chunk_id_block (dn : String) : ∀ l : List Nat,
    (l.map (fun i => (⟨dn, i⟩ : Meta))).map Meta.chunk_id = l := by
  intro l
  induction l with
  | nil => rfl
  | cons a l ih =>
      simp only [List.map_cons]
      rw [ih]

/-- C4: with document names unique within the corpus (§3 of the spec), the
`chunk_id` values that `build_corpus_chunks` records for any fixed
`doc_name`, read in output order, are exactly `0, 1, 2, …` with no gaps:
the filtered `chunk_id` sequence equals `List.range` of its length. -/
theorem build_corpus_chunks_chunk_id_contiguous
    (docs : List (String × String)) (name : String)
    (hnd : (docs.map Prod.fst).Nodup) :
    (((build_corpus_chunks docs).2.filter
        (fun m => m.doc_name == name)).map Meta.chunk_id) =
      List.range (((build_corpus_chunks docs).2.filter
        (fun m => m.doc_name == name)).length) := by
  induction docs with
  | nil => simp [build_corpus_chunks]
  | cons d docs ih =>
      obtain ⟨dn, text⟩ := d
      simp only [List.map_cons, List.nodup_cons] at hnd
      obtain ⟨hdn, hnd⟩ := hnd
      have hsnd : (build_corpus_chunks ((dn, text) :: docs)).2 =
          (List.range (chunk_text_defaults text).length).map
            (fun i => (⟨dn, i⟩ : Meta)) ++ (build_corpus_chunks docs).2 :=
        rfl
      by_cases hname : dn = name
      · subst hname
        have hms : ((build_corpus_chunks docs).2.filter
            (fun m => m.doc_name == dn)) = [] := by
          rw [List.filter_eq_nil_iff]
          intro m hm
          have hmem := build_corpus_doc_names docs m hm
          simp only [beq_iff_eq]
          intro he
          exact hdn (he ▸ hmem)
        have hblock : (((List.range
            (chunk_text_defaults text).length).map
            (fun i => (⟨dn, i⟩ : Meta))).filter
            (fun m => m.doc_name == dn)) =
            ((List.range (chunk_text_defaults text).length).map
              (fun i => (⟨dn, i⟩ : Meta))) := by
          rw [List.filter_eq_self]
          intro m hm
          obtain ⟨i, _, rfl⟩ := List.mem_map.1 hm
          simp
        rw [hsnd, List.filter_append, hblock, hms, List.append_nil,
          map_chunk_id_block, List.length_map, List.length_range]
      · have hblock : (((List.range
            (chunk_text_defaults text).length).map
            (fun i => (⟨dn, i⟩ : Meta))).filter
            (fun m => m.doc_name == name)) = [] := by
          rw [List.filter_eq_nil_iff]
          intro m hm
          obtain ⟨i, _, rfl⟩ := List.mem_map.1 hm
          simpa using hname
        rw [hsnd, List.filter_append, hblock, List.nil_append]
        exact ih hnd

/-- Witness for C4 on a two-document corpus. -/
theorem build_corpus_chunks_chunk_id_contiguous_witness :
    (([("a", "hi there"), ("b", "more text")].map Prod.fst).Nodup) ∧
    (((build_corpus_chunks
        [("a", "hi there"), ("b", "more text")]).2.filter
        (fun m => m.doc_name == "a")).map Meta.chunk_id) =
      List.range (((build_corpus_chunks
        [("a", "hi there"), ("b", "more text")]).2.filter
        (fun m => m.doc_name == "a")).length) :=
  ⟨by decide, build_corpus_chunks_chunk_id_contiguous
    [("a", "hi there"), ("b", "more text")] "a" (by decide)⟩

/-- The loop of `embed_chunks_with_logging` (src/index_builder.py, lines
124-149): iterate over `enumerate(zip(chunks, metadata))`; on a successful
embedding call append vector, chunk and metadata to the three output
lists; on a per-item failure drop the item from all three and continue.
The external `ollama.embeddings` call is the injected `embedFn`, with
`none` modelling an exception raised for that item. -/
def embedLoop (embedFn : Nat → String → Option (List ℚ)) :
    Nat → List (String × Meta) →
      List (List ℚ) × List String × List Meta
  | _, [] => ([], [], [])
  | i, (chunk, meta) :: rest =>
      match embedFn i chunk with
      | some emb =>
          (emb :: (embedLoop embedFn (i + 1) rest).1,
            chunk :: (embedLoop embedFn (i + 1) rest).2.1,
            meta :: (embedLoop embedFn (i + 1) rest).2.2)
      | none => embedLoop embedFn (i + 1) rest

/-- Message of the `RuntimeError` raised when no embedding was produced
(the spec's `EmptyEmbeddingError`); ANSI color codes elided. -/
def emptyEmbeddingMsg : String :=
  "Nenhum embedding foi gerado — Ollama pode estar offline ou com falha."

/-- Function `embed_chunks_with_logging(chunks, metadata)`
(src/index_builder.py, lines 116-157): run the loop over the zipped
inputs and raise
`RuntimeError` when the vector list came out empty. -/
def embed_chunks_with_logging (embedFn : Nat → String → Option (List ℚ))
    (chunks : List String) (metadata : List Meta) :
    Except String (List (List ℚ) × List String × List Meta) :=
  if (embedLoop embedFn 0 (chunks.zip metadata)).1.isEmpty then
    Except.error emptyEmbeddingMsg
  else
    Except.ok (embedLoop embedFn 0 (chunks.zip metadata))

/-- Characterization of the embedding loop: the three outputs have equal
lengths, and zipping them yields exactly the per-item-successful entries
of the enumerated input, each paired with its own embedding. -/
lemma embedLoop_spec (f : Nat → String → Option (List ℚ)) :
    ∀ (pairs : List (String × Meta)) (i : Nat),
      (embedLoop f i pairs).1.length =
        (embedLoop f i pairs).2.1.length ∧
      (embedLoop f i pairs).2.1.length =
        (embedLoop f i pairs).2.2.length ∧
      (embedLoop f i pairs).1.zip ((embedLoop f i pairs).2.1.zip
          (embedLoop f i pairs).2.2) =
        (List.enumFrom i pairs).filterMap
          (fun p => (f p.1 p.2.1).map (fun v => (v, p.2.1, p.2.2))) := by
  intro pairs
  induction pairs with
  | nil => intro i; exact ⟨rfl, rfl, rfl⟩
  | cons p rest ih =>
      intro i
      obtain ⟨c, m⟩ := p
      obtain ⟨ih1, ih2, ih3⟩ := ih (i + 1)
      cases hfc : f i c with
      | some v =>
          refine ⟨?_, ?_, ?_⟩
          · simp [embedLoop, hfc, ih1]
          · simp [embedLoop, hfc, ih2]
          · simp only [embedLoop, hfc, List.enumFrom, List.filterMap_cons,
              Option.map_some']
            rw [List.zip_cons_cons, List.zip_cons_cons, ih3]
      | none =>
          refine ⟨?_, ?_, ?_⟩
          · simp [embedLoop, hfc, ih1]
          · simp [embedLoop, hfc, ih2]
          · simp only [embedLoop, hfc, List.enumFrom, List.filterMap_cons,
              Option.map_none']
            exact ih3

/-- C5: whenever `embed_chunks_with_logging` returns, its three outputs are
parallel — equal lengths, and the i-th entries of all three describe the
same surviving chunk: zipping them gives the successful entries of the
enumerated zipped input, in order, each vector paired with the chunk and
metadata it was computed from. -/
theorem embed_chunks_parallel_arrays
    (embedFn : Nat → String → Option (List ℚ))
    (chunks : List String) (metadata : List Meta)
    (vectors : List (List ℚ)) (chunks_ok : List String)
    (metadata_ok : List Meta)
    (h : embed_chunks_with_logging embedFn chunks metadata =
      Except.ok (vectors, chunks_ok, metadata_ok)) :
    vectors.length = chunks_ok.length ∧
    chunks_ok.length = metadata_ok.length ∧
    vectors.zip (chunks_ok.zip metadata_ok) =
      (List.enumFrom 0 (chunks.zip metadata)).filterMap
        (fun p => (embedFn p.1 p.2.1).map
          (fun v => (v, p.2.1, p.2.2))) := by
  unfold embed_chunks_with_logging at h
  by_cases hem : (embedLoop embedFn 0 (chunks.zip metadata)).1.isEmpty
  · rw [if_pos hem] at h
    cases h
  · rw [if_neg hem] at h
    have h' : embedLoop embedFn 0 (chunks.zip metadata) =
        (vectors, chunks_ok, metadata_ok) := by
      injection h
    obtain ⟨h1, h2, h3⟩ := embedLoop_spec embedFn (chunks.zip metadata) 0
    rw [h'] at h1 h2 h3
    exact ⟨h1, h2, h3⟩

/-- Witness for C5: three chunks, the middle embedding call fails. -/
theorem embed_chunks_parallel_arrays_witness :
    (embed_chunks_with_logging
        (fun i _ => if i == 1 then none else some [(1 : ℚ)])
        ["a", "b", "c"] [⟨"d", 0⟩, ⟨"d", 1⟩, ⟨"d", 2⟩] =
      Except.ok ([[(1 : ℚ)], [(1 : ℚ)]], ["a", "c"],
        [⟨"d", 0⟩, ⟨"d", 2⟩])) ∧
    ([[(1 : ℚ)], [(1 : ℚ)]].length = ["a", "c"].length ∧
     ["a", "c"].length = [(⟨"d", 0⟩ : Meta), ⟨"d", 2⟩].length ∧
     [[(1 : ℚ)], [(1 : ℚ)]].zip (["a", "c"].zip
        [(⟨"d", 0⟩ : Meta), ⟨"d", 2⟩]) =
      (List.enumFrom 0 (["a", "b", "c"].zip
          [(⟨"d", 0⟩ : Meta), ⟨"d", 1⟩, ⟨"d", 2⟩])).filterMap
        (fun p => ((fun (i : Nat) (_ : String) =>
            if i == 1 then none else some [(1 : ℚ)]) p.1 p.2.1).map
          (fun v => (v, p.2.1, p.2.2)))) :=
  ⟨by rfl, embed_chunks_parallel_arrays
    (fun i _ => if i == 1 then none else some [(1 : ℚ)])
    ["a", "b", "c"] [⟨"d", 0⟩, ⟨"d", 1⟩, ⟨"d", 2⟩]
    [[(1 : ℚ)], [(1 : ℚ)]] ["a", "c"] [⟨"d", 0⟩, ⟨"d", 2⟩] (by rfl)⟩

/-- Function `main()` of src/index_builder.py (lines 205-223), as far as
persistence
is observable: abort when no PDF was loaded; otherwise chunk the corpus,
embed it, and — only when embedding succeeded — build the FAISS index and
persist the bundle.  `some` is the persisted triple handed to
`build_faiss_index`/`save_index_and_chunks`; `none` means the run ended
with nothing built or written (early return or propagated exception). -/
def mainIndexing (embedFn : Nat → String → Option (List ℚ))
    (docs : List (String × String)) :
    Option (List (List ℚ) × List String × List Meta) :=
  if docs.isEmpty then
    none
  else
    match embed_chunks_with_logging embedFn
        (build_corpus_chunks docs).1 (build_corpus_chunks docs).2 with
    | Except.error _ => none
    | Except.ok (vectors, chunks_ok, metadata_ok) =>
        some (vectors, chunks_ok, metadata_ok)

/-- If every embedding call fails, the loop produces three empty lists. -/
lemma embedLoop_all_fail (f : Nat → String → Option (List ℚ))
    (hf : ∀ i c, f i c = none) :
    ∀ (pairs : List (String × Meta)) (i : Nat),
      embedLoop f i pairs = ([], [], []) := by
  intro pairs
  induction pairs with
  | nil => intro i; rfl
  | cons p rest ih =>
      intro i
      obtain ⟨c, m⟩ := p
      simp [embedLoop, hf i c, ih]

/-- C6: when every per-item embedding call in the batch fails, the batch
raises the empty-batch error, and the indexing run persists nothing: no
triple reaches `build_faiss_index`/`save_index_and_chunks`. -/
theorem embed_chunks_empty_batch_fails
    (embedFn : Nat → String → Option (List ℚ))
    (chunks : List String) (metadata : List Meta)
    (docs : List (String × String))
    (hf : ∀ i c, embedFn i c = none) :
    embed_chunks_with_logging embedFn chunks metadata =
      Except.error emptyEmbeddingMsg ∧
    mainIndexing embedFn docs = none := by
  have hloop : ∀ (cs : List String) (ms : List Meta),
      embed_chunks_with_logging embedFn cs ms =
        Except.error emptyEmbeddingMsg := by
    intro cs ms
    unfold embed_chunks_with_logging
    rw [embedLoop_all_fail embedFn hf (cs.zip ms) 0]
    rfl
  refine ⟨hloop chunks metadata, ?_⟩
  unfold mainIndexing
  by_cases hd : docs.isEmpty
  · rw [if_pos hd]
  · rw [if_neg hd, hloop]

/-- Witness for C6 with one document and an always-failing embedder. -/
theorem embed_chunks_empty_batch_fails_witness :
    (∀ (i : Nat) (c : String),
      (fun (_ : Nat) (_ : String) =>
        (none : Option (List ℚ))) i c = none) ∧
    (embed_chunks_with_logging
        (fun _ _ => (none : Option (List ℚ))) ["a"] [⟨"d", 0⟩] =
      Except.error emptyEmbeddingMsg ∧
    mainIndexing (fun _ _ => (none : Option (List ℚ)))
        [("d", "hi")] = none) :=
  ⟨fun _ _ => rfl, embed_chunks_empty_batch_fails
    (fun _ _ => (none : Option (List ℚ))) ["a"] [⟨"d", 0⟩]
    [("d", "hi")] (fun _ _ => rfl)⟩

/-- The empty string, as the (never taken) `getD` default for an indexing
operation whose bound is already established. -/
def defaultText : String := ""

/-- A retrieval result dict of `rag_retrieve` (src/rag_core.py).  The
`doc_name`/`chunk_id` fields are `meta.get(...)` values, hence optional;
FAISS distances, machine floats in the source, are modelled as
rationals. -/
structure RagItem where
  text : String
  doc_name : Option String
  chunk_id : Option Nat
  rank : Nat
  distance : ℚ
deriving DecidableEq

/-- The user-message content `traduzir_para_ingles` sends to the chat
service: the f-string prompt of src/rag_core.py, lines 37-43. -/
def traducaoPrompt (texto : String) : String :=
  "\nTraduza o texto a seguir para INGLÊS, mantendo a terminologia técnica de Inteligência Artificial correta.\nNão explique nada, responda SOMENTE com a tradução em inglês.\n\nTexto:\n\"\"\"" ++
    texto ++ "\"\"\"\n"

/-- Function `traduzir_para_ingles(texto)` (src/rag_core.py, lines 29-60):
send the stripped prompt to the chat service; on any raised exception
return the original text; when the stripped reply is empty return the
original text; otherwise return the stripped reply.  `chatFn` is the
injected `ollama.chat` call, given the user-message content and returning
the reply's message content; `Except.error` models a raised exception. -/
def traduzir_para_ingles (chatFn : String → Except String String)
    (texto : String) : String :=
  match chatFn (pyStrip (traducaoPrompt texto)) with
  | Except.error _ => texto
  | Except.ok resp =>
      if pyStrip resp = "" then texto else pyStrip resp

/-- Function `embed_texts(texts)` (src/rag_core.py, lines 15-26): embed
each text in order; the first raised exception propagates.  `embedFn` is
the injected `ollama.embeddings` call. -/
def embed_texts (embedFn : String → Except String (List ℚ)) :
    List String → Except String (List (List ℚ))
  | [] => Except.ok []
  | t :: ts =>
      match embedFn t with
      | Except.error e => Except.error e
      | Except.ok v =>
          match embed_texts embedFn ts with
          | Except.error e => Except.error e
          | Except.ok vs => Except.ok (v :: vs)

/-- Expression `metadata[idx] if idx < len(metadata) else {}` followed by
`.get(...)` on both keys: out-of-range metadata degrades to the empty
dict, whose `get` yields `None`. -/
def ragMetaAt (metadata : List Meta) (i : Nat) : Option Meta :=
  if i < metadata.length then metadata.get? i else none

/-- The result-collection loop of `rag_retrieve` (src/rag_core.py, lines
97-107): `rank` is the `enumerate` counter over the raw search entries and
advances on every entry, dropped or not; an entry is emitted only when
`0 <= idx < len(chunks)`.  `pairs` carries `(idx, dists[rank])`
positionally aligned, well-formed because FAISS returns `indices` and
`distances` of identical shape. -/
def ragLoop (chunks : List String) (metadata : List Meta) :
    Nat → List (Int × ℚ) → List RagItem
  | _, [] => []
  | rank, (idx, dist) :: rest =>
      if 0 ≤ idx ∧ idx < (chunks.length : Int) then
        { text := chunks.getD idx.toNat defaultText,
          doc_name := (ragMetaAt metadata idx.toNat).map Meta.doc_name,
          chunk_id := (ragMetaAt metadata idx.toNat).map Meta.chunk_id,
          rank := rank,
          distance := dist } :: ragLoop chunks metadata (rank + 1) rest
      else
        ragLoop chunks metadata (rank + 1) rest

/-- Function `rag_retrieve(query, index, chunks, metadata, top_k)`
(src/rag_core.py, lines 63-117): translate the query, embed the
translation (a raised exception propagates), search the index, and collect
the in-bounds results.  The FAISS `index.search` call is the injected
`searchFn`, returning the `(distances, indices)` rows for the single
query. -/
def rag_retrieve (chatFn : String → Except String String)
    (embedFn : String → Except String (List ℚ))
    (searchFn : List (List ℚ) → Nat → List ℚ × List Int)
    (query : String) (chunks : List String) (metadata : List Meta)
    (top_k : Nat) : Except String (List RagItem) :=
  match embed_texts embedFn [traduzir_para_ingles chatFn query] with
  | Except.error e => Except.error e
  | Except.ok query_emb =>
      Except.ok (ragLoop chunks metadata 0
        ((searchFn query_emb top_k).2.zip (searchFn query_emb top_k).1))

/-- What one raw search entry `(rawPos, idx, dist)` contributes to the
output when its `rank` field is its raw 0-based search position. -/
def ragEmit (chunks : List String) (metadata : List Meta) :
    Nat × Int × ℚ → Option RagItem
  | (rawPos, idx, dist) =>
      if 0 ≤ idx ∧ idx < (chunks.length : Int) then
        some
          { text := chunks.getD idx.toNat defaultText,
            doc_name := (ragMetaAt metadata idx.toNat).map Meta.doc_name,
            chunk_id := (ragMetaAt metadata idx.toNat).map Meta.chunk_id,
            rank := rawPos,
            distance := dist }
      else
        none

/-- The collection loop emits exactly the in-bounds entries, each with its
raw search position as `rank`. -/
lemma ragLoop_eq_filterMap (chunks : List String) (metadata : List Meta) :
    ∀ (pairs : List (Int × ℚ)) (r : Nat),
      ragLoop chunks metadata r pairs =
        (List.enumFrom r pairs).filterMap (ragEmit chunks metadata) := by
  intro pairs
  induction pairs with
  | nil => intro r; rfl
  | cons p rest ih =>
      intro r
      obtain ⟨idx, dist⟩ := p
      by_cases hb : 0 ≤ idx ∧ idx < (chunks.length : Int)
      · simp only [ragLoop, ragEmit, if_pos hb, List.enumFrom,
          List.filterMap_cons]
        rw [ih]
      · simp only [ragLoop, ragEmit, if_neg hb, List.enumFrom,
          List.filterMap_cons]
        exact ih (r + 1)

/-- C1, corrected: whenever the query embedding succeeds, `rag_retrieve`
returns exactly the in-bounds search entries (a position outside
`0 ≤ p < len(chunks)` is dropped without failing), and each returned
element's `rank` is its raw 0-based search position — the `enumerate`
counter — not the dense output position re-derived after dropping. -/
theorem rag_retrieve_bounds_and_raw_ranks
    (chatFn : String → Except String String)
    (embedFn : String → Except String (List ℚ))
    (searchFn : List (List ℚ) → Nat → List ℚ × List Int)
    (query : String) (chunks : List String) (metadata : List Meta)
    (top_k : Nat) (v : List ℚ)
    (h : embedFn (traduzir_para_ingles chatFn query) = Except.ok v) :
    rag_retrieve chatFn embedFn searchFn query chunks metadata top_k =
      Except.ok ((List.enumFrom 0
          ((searchFn [v] top_k).2.zip (searchFn [v] top_k).1)).filterMap
        (ragEmit chunks metadata)) := by
  unfold rag_retrieve
  simp only [embed_texts, h]
  rw [ragLoop_eq_filterMap]

/-- Witness for C1's corrected statement: one out-of-bounds position
followed by one in-bounds position. -/
theorem rag_retrieve_bounds_and_raw_ranks_witness :
    ((fun (_ : String) =>
        (Except.ok [(0 : ℚ)] : Except String (List ℚ)))
        (traduzir_para_ingles (fun _ => Except.error "down") "q") =
      Except.ok [(0 : ℚ)]) ∧
    rag_retrieve (fun _ => Except.error "down")
        (fun _ => Except.ok [(0 : ℚ)])
        (fun _ _ => ([(1 : ℚ), 2], [(5 : Int), 0]))
        "q" ["alpha"] [⟨"doc", 0⟩] 2 =
      Except.ok ((List.enumFrom 0
          (((fun (_ : List (List ℚ)) (_ : Nat) =>
              ([(1 : ℚ), 2], [(5 : Int), 0])) [[(0 : ℚ)]] 2).2.zip
            (((fun (_ : List (List ℚ)) (_ : Nat) =>
              ([(1 : ℚ), 2], [(5 : Int), 0])) [[(0 : ℚ)]] 2).1))).filterMap
        (ragEmit ["alpha"] [⟨"doc", 0⟩])) :=
  ⟨rfl, rag_retrieve_bounds_and_raw_ranks
    (fun _ => Except.error "down") (fun _ => Except.ok [(0 : ℚ)])
    (fun _ _ => ([(1 : ℚ), 2], [(5 : Int), 0]))
    "q" ["alpha"] [⟨"doc", 0⟩] 2 [(0 : ℚ)] rfl⟩

/-- Counterexample to C1 as stated: with raw search positions `[5, 0]`
over a single-chunk store, the one surviving result carries `rank = 1`
(its raw search position), while the claim requires the 0th output element
to have `rank = 0`. -/
theorem rag_retrieve_dense_rank_counterexample :
    rag_retrieve (fun _ => Except.error "down")
        (fun _ => Except.ok [(0 : ℚ)])
        (fun _ _ => ([(1 : ℚ), 2], [(5 : Int), 0]))
        "q" ["alpha"] [⟨"doc", 0⟩] 2 =
      Except.ok
        [{ text := "alpha", doc_name := some "doc", chunk_id := some 0,
           rank := 1, distance := 2 }] ∧
    [{ text := "alpha", doc_name := some "doc", chunk_id := some 0,
       rank := 1, distance := (2 : ℚ) }].map RagItem.rank ≠
      List.range 1 :=
  ⟨by rfl, by decide⟩

/-- C7: a query-time embedding failure is fatal to the retrieval call: the
exception propagates to the caller unchanged, with no fallback and no
partial or empty result list in its place. -/
theorem rag_retrieve_embedding_failure_fatal
    (chatFn : String → Except String String)
    (embedFn : String → Except String (List ℚ))
    (searchFn : List (List ℚ) → Nat → List ℚ × List Int)
    (query : String) (chunks : List String) (metadata : List Meta)
    (top_k : Nat) (e : String)
    (h : embedFn (traduzir_para_ingles chatFn query) = Except.error e) :
    rag_retrieve chatFn embedFn searchFn query chunks metadata top_k =
      Except.error e := by
  unfold rag_retrieve
  simp only [embed_texts, h]

/-- Witness for C7 with an embedder that always raises. -/
theorem rag_retrieve_embedding_failure_fatal_witness :
    ((fun (_ : String) =>
        (Except.error "boom" : Except String (List ℚ)))
        (traduzir_para_ingles (fun _ => Except.ok "x") "q") =
      Except.error "boom") ∧
    rag_retrieve (fun _ => Except.ok "x")
        (fun _ => Except.error "boom")
        (fun _ _ => ([], [])) "q" ["alpha"] [⟨"doc", 0⟩] 2 =
      Except.error "boom" :=
  ⟨rfl, rag_retrieve_embedding_failure_fatal (fun _ => Except.ok "x")
    (fun _ => Except.error "boom") (fun _ _ => ([], []))
    "q" ["alpha"] [⟨"doc", 0⟩] 2 "boom" rfl⟩

/-- C8: when the translation call raises or its stripped reply is empty,
`traduzir_para_ingles` returns the original query unchanged, and a
retrieval whose query embedding succeeds still completes with a result
list rather than failing. -/
theorem traducao_fallback
    (chatFn : String → Except String String)
    (embedFn : String → Except String (List ℚ))
    (searchFn : List (List ℚ) → Nat → List ℚ × List Int)
    (query : String) (chunks : List String) (metadata : List Meta)
    (top_k : Nat) (out : String) (v : List ℚ)
    (hchat : (∃ err, chatFn (pyStrip (traducaoPrompt query)) =
        Except.error err) ∨
      (chatFn (pyStrip (traducaoPrompt query)) = Except.ok out ∧
        pyStrip out = ""))
    (hembed : embedFn query = Except.ok v) :
    traduzir_para_ingles chatFn query = query ∧
    ∃ results, rag_retrieve chatFn embedFn searchFn query chunks metadata
      top_k = Except.ok results := by
  have htr : traduzir_para_ingles chatFn query = query := by
    unfold traduzir_para_ingles
    rcases hchat with ⟨err, h⟩ | ⟨h, hemp⟩
    · rw [h]
    · rw [h]
      show (if pyStrip out = "" then query else pyStrip out) = query
      rw [if_pos hemp]
  refine ⟨htr, ?_⟩
  unfold rag_retrieve
  rw [htr]
  simp only [embed_texts, hembed]
  exact ⟨_, rfl⟩

/-- Witness for C8 with a chat service that always raises. -/
theorem traducao_fallback_witness :
    ((∃ err, (fun (_ : String) =>
          (Except.error "down" : Except String String))
        (pyStrip (traducaoPrompt "consulta")) = Except.error err) ∨
      ((fun (_ : String) =>
          (Except.error "down" : Except String String))
          (pyStrip (traducaoPrompt "consulta")) = Except.ok "x" ∧
        pyStrip "x" = "")) ∧
    ((fun (_ : String) =>
        (Except.ok [(0 : ℚ)] : Except String (List ℚ))) "consulta" =
      Except.ok [(0 : ℚ)]) ∧
    (traduzir_para_ingles (fun _ => Except.error "down") "consulta" =
      "consulta" ∧
    ∃ results, rag_retrieve (fun _ => Except.error "down")
        (fun _ => Except.ok [(0 : ℚ)]) (fun _ _ => ([], []))
        "consulta" ["alpha"] [⟨"doc", 0⟩] 2 = Except.ok results) :=
  ⟨Or.inl ⟨"down", rfl⟩, rfl,
    traducao_fallback (fun _ => Except.error "down")
      (fun _ => Except.ok [(0 : ℚ)]) (fun _ _ => ([], []))
      "consulta" ["alpha"] [⟨"doc", 0⟩] 2 "x" [(0 : ℚ)]
      (Or.inl ⟨"down", rfl⟩) rfl⟩

/-- C10: a search position that is within the chunk store but beyond the
metadata array does not make retrieval fail: the entry is still emitted,
its text joined from the chunk store and its `doc_name`/`chunk_id` both
`None`, and the loop continues with the remaining entries. -/
theorem rag_short_metadata_emits_none_attribution
    (chunks : List String) (metadata : List Meta) (rank : Nat)
    (idx : Int) (dist : ℚ) (rest : List (Int × ℚ))
    (h0 : 0 ≤ idx) (h1 : (metadata.length : Int) ≤ idx)
    (h2 : idx < (chunks.length : Int)) :
    ragLoop chunks metadata rank ((idx, dist) :: rest) =
      { text := chunks.getD idx.toNat defaultText, doc_name := none,
        chunk_id := none, rank := rank, distance := dist } ::
      ragLoop chunks metadata (rank + 1) rest := by
  have hm : ragMetaAt metadata idx.toNat = none := by
    unfold ragMetaAt
    rw [if_neg (by omega)]
  rw [ragLoop, if_pos ⟨h0, h2⟩, hm]
  rfl

/-- Witness for C10: two chunks, a single metadata record, search
position 1. -/
theorem rag_short_metadata_emits_none_attribution_witness :
    (0 : Int) ≤ 1 ∧
    ((([(⟨"d", 0⟩ : Meta)].length : Int) ≤ 1) ∧
    ((1 : Int) < (["a", "b"].length : Int)) ∧
    ragLoop ["a", "b"] [⟨"d", 0⟩] 0 [((1 : Int), (3 : ℚ))] =
      { text := ["a", "b"].getD (1 : Int).toNat defaultText,
        doc_name := none, chunk_id := none, rank := 0,
        distance := (3 : ℚ) } ::
      ragLoop ["a", "b"] [⟨"d", 0⟩] 1 []) :=
  ⟨by decide, by decide, by decide,
    rag_short_metadata_emits_none_attribution ["a", "b"] [⟨"d", 0⟩] 0
      1 3 [] (by decide) (by decide) (by decide)⟩

/-- On-disk state seen by `load_index_and_data` (src/main.py): the content
behind each of the three artifact paths, `none` when `os.path.exists` is
false for that path. -/
structure DiskState where
  faiss_file : Option (List (List ℚ))
  chunks_file : Option (List String)
  metadata_file : Option (List Meta)

/-- Function `load_index_and_data()` (src/main.py, lines 24-43): when any
of the three artifact files is missing, return `(None, None, None)`
without reading anything; otherwise read and return all three. -/
def load_index_and_data (fs : DiskState) :
    Option (List (List ℚ)) × Option (List String) × Option (List Meta) :=
  if fs.faiss_file.isSome ∧ fs.chunks_file.isSome ∧
      fs.metadata_file.isSome then
    (fs.faiss_file, fs.chunks_file, fs.metadata_file)
  else
    (none, none, none)

/-- C9: if at least one of the three persisted artifacts is missing, the
load returns `(None, None, None)`: partial artifact presence is treated as
no index, and no subset of the artifacts is handed to the caller. -/
theorem load_partial_artifacts_is_no_index (fs : DiskState)
    (h : fs.faiss_file = none ∨ fs.chunks_file = none ∨
      fs.metadata_file = none) :
    load_index_and_data fs = (none, none, none) := by
  unfold load_index_and_data
  rw [if_neg]
  rcases h with h | h | h <;> simp [h]

/-- Witness for C9: the chunk and metadata files exist but the FAISS index
file does not. -/
theorem load_partial_artifacts_is_no_index_witness :
    ((DiskState.mk none (some ["a"]) (some [⟨"d", 0⟩])).faiss_file =
        none ∨
      (DiskState.mk none (some ["a"]) (some [⟨"d", 0⟩])).chunks_file =
        none ∨
      (DiskState.mk none (some ["a"]) (some [⟨"d", 0⟩])).metadata_file =
        none) ∧
    load_index_and_data (DiskState.mk none (some ["a"])
        (some [⟨"d", 0⟩])) = (none, none, none) :=
  ⟨Or.inl rfl, load_partial_artifacts_is_no_index
    (DiskState.mk none (some ["a"]) (some [⟨"d", 0⟩])) (Or.inl rfl)⟩

end RagSpec
